import Mathlib

/-!
Shallow embedding of `src/app.py` (a Flask reverse proxy for the fal.ai API)
and proofs of the spec claims about it.

Conventions of the embedding:
* Python `dict` over string keys is modelled as an association list
  `List (String × α)` together with `dictInsert` (replace-in-place or append,
  matching CPython insertion-order semantics), `dictGet` and `dictUpdate`.
* `os.environ.get(NAME)` is modelled as an `Option String` argument
  (`none` = variable unset).
* Raised exceptions are modelled with `Except String`; the carried string is
  the exception message.
* The outbound HTTP library (`requests.request`) and the fal SDK
  (`fal_client.upload_file`, `fal_client.run`) are external collaborators and
  are passed in as oracle functions; the functions under verification record
  the calls they make to these oracles so that "exactly one outbound call" /
  "the model is never invoked" become provable statements.
* Request bodies / file contents are byte lists (`List Nat`).
-/

set_option autoImplicit false

namespace FalProxy

/-! ## Python dict over string keys, as an association list -/

/-- `d[k] = v` on a Python dict: replace the value at an existing key
(keeping its position), otherwise append the new pair at the end. -/
def dictInsert {α : Type} : List (String × α) → String → α → List (String × α)
  | [], k, v => [(k, v)]
  | p :: rest, k, v => if p.1 = k then (k, v) :: rest else p :: dictInsert rest k v

/-- `d.get(k)`: the value at the first pair whose key equals `k`. -/
def dictGet {α : Type} : List (String × α) → String → Option α
  | [], _ => none
  | p :: rest, k => if p.1 = k then some p.2 else dictGet rest k

/-- `d.update(e)`: insert every pair of `e` into `d`, in order. -/
def dictUpdate {α : Type} (d e : List (String × α)) : List (String × α) :=
  e.foldl (fun acc q => dictInsert acc q.1 q.2) d

/-! ## String helpers used by the source (`str.rstrip('/')`, `str.lstrip('/')`,
`os.path.splitext`) -/

/-- Python `s.rstrip('/')`. -/
def rstripSlashes (s : String) : String :=
  String.mk ((s.data.reverse.dropWhile (fun c => c = '/')).reverse)

/-- Python `s.lstrip('/')`. -/
def lstripSlashes (s : String) : String :=
  String.mk (s.data.dropWhile (fun c => c = '/'))

/-- Python `s.lower()` (ASCII case folding, which is all the source compares
with): lowercase each character. Structural, so the kernel can evaluate it. -/
def lowerStr (s : String) : String :=
  String.mk (s.data.map Char.toLower)

/-- Index of the last occurrence of `c`, if any. -/
def lastIndexOf (c : Char) : List Char → Option Nat
  | [] => none
  | x :: xs =>
    match lastIndexOf c xs with
    | some i => some (i + 1)
    | none => if x = c then some 0 else none

/-- `os.path.splitext(p)[1]` (posix): the extension starts at the last dot
that lies after the last path separator and after at least one non-dot
character of the basename; otherwise the extension is empty. -/
def splitext_ext (p : String) : String :=
  let cs := p.data
  let sepIdx : Int :=
    match lastIndexOf '/' cs with
    | some i => (i : Int)
    | none => -1
  match lastIndexOf '.' cs with
  | none => ""
  | some d =>
    if sepIdx < (d : Int) then
      let base := (cs.take d).drop (sepIdx + 1).toNat
      if base.any (fun ch => ch ≠ '.') then String.mk (cs.drop d) else ""
    else ""

/-! ## Configuration (`get_fal_key`, `get_fal_base`, `build_fal_url`) -/

def DEFAULT_FAL_BASE : String := "https://fal.run"

def TIMEOUT_SECONDS : Nat := 300

/-- `get_fal_key`: read `FAL_KEY` from the environment; raise `RuntimeError`
when it is unset or empty (Python `if not key`). -/
def get_fal_key (envKey : Option String) : Except String String :=
  match envKey with
  | none => Except.error "FAL_KEY is missing"
  | some k => if k = "" then Except.error "FAL_KEY is missing" else Except.ok k

/-- `get_fal_base`: `FAL_BASE_URL` or the default, with trailing slashes
stripped. -/
def get_fal_base (envBase : Option String) : String :=
  rstripSlashes (match envBase with | some b => b | none => DEFAULT_FAL_BASE)

/-- `build_fal_url`. -/
def build_fal_url (envBase : Option String) (path : String) : String :=
  get_fal_base envBase ++ "/" ++ lstripSlashes path

/-! ## `build_forward_headers` -/

/-- The header-name denylist test of `build_forward_headers`
(`lk in ("host", "authorization", "content-length", "connection")`). -/
def droppedHeader (k : String) : Bool :=
  ["host", "authorization", "content-length", "connection"].contains (lowerStr k)

/-- The `for k, v in incoming_headers.items()` loop of `build_forward_headers`:
copy every pair whose lowered name is not denylisted into the dict `acc`. -/
def stripDeny (acc : List (String × String)) : List (String × String) → List (String × String)
  | [] => acc
  | p :: rest =>
    if droppedHeader p.1 then stripDeny acc rest
    else stripDeny (dictInsert acc p.1 p.2) rest

/-- `build_forward_headers`: copy non-denylisted inbound headers, then set
`Authorization` to `Key <secret>`; raises when the key is missing. -/
def build_forward_headers (envKey : Option String)
    (incoming : List (String × String)) : Except String (List (String × String)) :=
  let headers := stripDeny [] incoming
  match get_fal_key envKey with
  | Except.error e => Except.error e
  | Except.ok key => Except.ok (dictInsert headers "Authorization" ("Key " ++ key))

/-! ## Query parameters (`args.lists()` of the werkzeug MultiDict, and the
`params=` encoding performed by `requests`) -/

/-- All values carried by key `k` in a list of query pairs, in order. -/
def valuesFor (l : List (String × String)) (k : String) : List String :=
  (l.filter (fun p => p.1 == k)).map Prod.snd

/-- Distinct keys of a query string in first-occurrence order (`acc` is the
accumulator of keys seen so far). -/
def argsKeysFrom (acc : List String) : List (String × String) → List String
  | [] => acc
  | p :: rest =>
    if acc.contains p.1 then argsKeysFrom acc rest
    else argsKeysFrom (acc ++ [p.1]) rest

def argsKeys (qs : List (String × String)) : List String :=
  argsKeysFrom [] qs

/-- `args.lists()`: each distinct key (first-occurrence order) paired with all
of its values in order — the `params = {k: v for k, v in args.lists()}` dict
of `forward_to_fal`. -/
def argsLists (qs : List (String × String)) : List (String × List String) :=
  (argsKeys qs).map (fun k => (k, valuesFor qs k))

/-- How `requests` encodes a params dict whose values are lists: each key is
repeated once per value, values in order. -/
def encodeParams : List (String × List String) → List (String × String)
  | [] => []
  | p :: rest => p.2.map (fun v => (p.1, v)) ++ encodeParams rest

/-! ## The forwarder (`forward_to_fal`) -/

/-- One outbound `requests.request(...)` call, as issued by the forwarder. -/
structure OutboundRequest where
  method : String
  url : String
  headers : List (String × String)
  params : List (String × List String)
  body : List Nat
  timeout : Nat
deriving DecidableEq, Repr

/-- An upstream response as seen through the `requests` response object. -/
structure UpstreamResp where
  status_code : Nat
  headers : List (String × String)
  content : List Nat
deriving DecidableEq, Repr

/-- The value returned by `forward_to_fal`: either a relayed `Response`
(status, headers, body) or the synthetic 502 JSON error
`jsonify({"error": ..., "detail": ...}), 502`. -/
inductive HttpReply where
  | raw (status : Nat) (headers : List (String × String)) (body : List Nat)
  | jsonErr (status : Nat) (error detail : String)
deriving DecidableEq, Repr

/-- The response-header denylist of `forward_to_fal`. -/
def respExcluded : List String := ["content-encoding", "transfer-encoding", "connection"]

/-- The `clean_headers` comprehension of `forward_to_fal`. -/
def cleanRespHeaders (hs : List (String × String)) : List (String × String) :=
  hs.filter (fun p => !(respExcluded.contains (lowerStr p.1)))

/-- `forward_to_fal`. The network (`requests.request`) is an oracle; the
second component of the result is the list of outbound calls issued.
An `Except.error` result is a raised (uncaught) exception. -/
def forward_to_fal (envKey envBase : Option String)
    (netRequest : OutboundRequest → Except String UpstreamResp)
    (method path : String) (args : List (String × String))
    (headers0 : List (String × String)) (body : List Nat) :
    Except String HttpReply × List OutboundRequest :=
  let url := build_fal_url envBase path
  let params := argsLists args
  match build_forward_headers envKey headers0 with
  | Except.error e => (Except.error e, [])
  | Except.ok fal_headers =>
    let req : OutboundRequest :=
      { method := method, url := url, headers := fal_headers,
        params := params, body := body, timeout := TIMEOUT_SECONDS }
    match netRequest req with
    | Except.error e =>
      (Except.ok (HttpReply.jsonErr 502 "request_to_fal_failed" e), [req])
    | Except.ok resp =>
      (Except.ok (HttpReply.raw resp.status_code (cleanRespHeaders resp.headers) resp.content),
       [req])

/-! ## JSON-ish values for the edit-endpoint arguments -/

/-- Values appearing in the argument dicts of the edit path. `strs` is a JSON
array of strings (used for `image_urls`). -/
inductive JVal where
  | str (s : String)
  | strs (xs : List String)
  | num (n : Int)
  | boolv (b : Bool)
  | nullv
deriving DecidableEq, Repr

/-- A werkzeug `FileStorage` as far as the source inspects it: a client
filename (empty string = missing, which also makes the object falsy) and the
file bytes. -/
structure FileStorage where
  filename : String
  content : List Nat
deriving DecidableEq, Repr

/-! ## `run_image_edit` -/

/-- Observable effect trace of `run_image_edit`: the transient files created
and removed (identified by creation index and suffix) and the
`fal_client.run` calls made. -/
structure EditTrace where
  created : List (Nat × String)
  removed : List (Nat × String)
  runCalls : List (String × List (String × JVal))
deriving DecidableEq, Repr

/-- The suffix given to the transient file:
`os.path.splitext(filename)[1] or ".png"`. -/
def tmpSuffix (filename : String) : String :=
  let ext := splitext_ext filename
  if ext = "" then ".png" else ext

/-- Result of the upload loop of `run_image_edit`: collected URLs, transient
files created and removed, and the message of the exception that escaped the
loop, if any. -/
structure LoopOut where
  urls : List String
  created : List (Nat × String)
  removed : List (Nat × String)
  err : Option String
deriving DecidableEq, Repr

/-- The `for file_storage in files` loop of `run_image_edit`: skip falsy files
(empty filename), otherwise create a transient file, upload it, and remove the
transient file in a `finally` block — so removal happens both when the upload
returns and when it raises, and a raised upload exception stops the loop. -/
def uploadLoop (upload_file : Nat × String → Except String String) :
    List FileStorage → Nat → LoopOut
  | [], _ => { urls := [], created := [], removed := [], err := none }
  | f :: rest, idx =>
    if f.filename = "" then uploadLoop upload_file rest idx
    else
      let tmp : Nat × String := (idx, tmpSuffix f.filename)
      match upload_file tmp with
      | Except.error e => { urls := [], created := [tmp], removed := [tmp], err := some e }
      | Except.ok url =>
        let r := uploadLoop upload_file rest (idx + 1)
        { urls := url :: r.urls, created := tmp :: r.created,
          removed := tmp :: r.removed, err := r.err }

/-- The `arguments` dict of `run_image_edit`: `prompt` and `image_urls`
defaults, updated with `extra_args` when it is a non-empty dict
(`if extra_args and isinstance(extra_args, dict)`). -/
def buildArguments (prompt : String) (image_urls : List String)
    (extra_args : Option (List (String × JVal))) : List (String × JVal) :=
  let arguments := [("prompt", JVal.str prompt), ("image_urls", JVal.strs image_urls)]
  match extra_args with
  | none => arguments
  | some e => if e.isEmpty then arguments else dictUpdate arguments e

/-- `run_image_edit`. `upload_file` and `runModel` are the fal SDK oracles;
an `Except.error` result is a raised exception; the trace records the
transient-file and model-invocation effects. -/
def run_image_edit (envKey : Option String)
    (upload_file : Nat × String → Except String String)
    (runModel : String → List (String × JVal) → Except String (List (String × JVal)))
    (model_id prompt : String) (files : List FileStorage)
    (extra_args : Option (List (String × JVal))) :
    Except String (List (String × JVal)) × EditTrace :=
  match get_fal_key envKey with
  | Except.error e => (Except.error e, { created := [], removed := [], runCalls := [] })
  | Except.ok _ =>
    let lo := uploadLoop upload_file files 0
    match lo.err with
    | some e =>
      (Except.error e, { created := lo.created, removed := lo.removed, runCalls := [] })
    | none =>
      if lo.urls.isEmpty then
        (Except.error "No valid images were uploaded",
         { created := lo.created, removed := lo.removed, runCalls := [] })
      else
        let arguments := buildArguments prompt lo.urls extra_args
        match runModel model_id arguments with
        | Except.error e =>
          (Except.error e,
           { created := lo.created, removed := lo.removed,
             runCalls := [(model_id, arguments)] })
        | Except.ok result =>
          (Except.ok (dictInsert result "_debug_image_urls" (JVal.strs lo.urls)),
           { created := lo.created, removed := lo.removed,
             runCalls := [(model_id, arguments)] })

/-! ## `ui_edit` -/

/-- A Flask JSON reply of the `/ui/edit` handler: HTTP status plus JSON-object
body. -/
structure UiReply where
  status : Nat
  body : List (String × JVal)
deriving DecidableEq, Repr

/-- `ui_edit`. `modelField` and `promptField` are `request.form.get(...)`
results; `extraParsed` is the outcome of `json.loads` on the `extra_json`
field (`none` = the parse raised); `files` is
`request.files.getlist("images")`. The handler never re-raises, so the result
is a plain reply together with the edit trace. -/
def ui_edit (envKey : Option String)
    (upload_file : Nat × String → Except String String)
    (runModel : String → List (String × JVal) → Except String (List (String × JVal)))
    (modelField promptField : Option String)
    (extraParsed : Option (List (String × JVal)))
    (files : List FileStorage) : UiReply × EditTrace :=
  let prompt := promptField.getD ""
  if files.isEmpty then
    ({ status := 400, body := [("error", JVal.str "missing_images")] },
     { created := [], removed := [], runCalls := [] })
  else
    match modelField with
    | none =>
      ({ status := 400, body := [("error", JVal.str "missing_model")] },
       { created := [], removed := [], runCalls := [] })
    | some m =>
      if m = "" then
        ({ status := 400, body := [("error", JVal.str "missing_model")] },
         { created := [], removed := [], runCalls := [] })
      else
        let extra := extraParsed.getD []
        match run_image_edit envKey upload_file runModel m prompt files (some extra) with
        | (Except.error e, tr) =>
          ({ status := 500, body := [("error", JVal.str "edit_failed"), ("detail", JVal.str e)] }, tr)
        | (Except.ok result, tr) =>
          ({ status := 200, body := result }, tr)

/-! ## Basic lemmas about the dict model -/

theorem dictGet_dictInsert_self {α : Type} (d : List (String × α)) (k : String) (v : α) :
    dictGet (dictInsert d k v) k = some v := by
  induction d with
  | nil => simp [dictInsert, dictGet]
  | cons p rest ih =>
    by_cases h : p.1 = k
    · simp [dictInsert, h, dictGet]
    · simp [dictInsert, h, dictGet, ih]

theorem dictGet_dictInsert_ne {α : Type} (d : List (String × α)) {k k' : String} (v : α)
    (h : k ≠ k') : dictGet (dictInsert d k' v) k = dictGet d k := by
  have h' : ¬(k' = k) := fun hh => h hh.symm
  induction d with
  | nil => simp [dictInsert, dictGet, h']
  | cons p rest ih =>
    by_cases hp : p.1 = k'
    · have hk : ¬(p.1 = k) := by rw [hp]; exact h'
      simp [dictInsert, hp, dictGet, h', hk]
    · by_cases hk : p.1 = k
      · simp [dictInsert, hp, dictGet, hk, h]
      · simp [dictInsert, hp, dictGet, hk, ih]

theorem mem_dictInsert {α : Type} {q : String × α} {d : List (String × α)} {k : String}
    {v : α} (h : q ∈ dictInsert d k v) : q = (k, v) ∨ q ∈ d := by
  induction d with
  | nil => simpa [dictInsert] using h
  | cons p rest ih =>
    by_cases hp : p.1 = k
    · simp only [dictInsert, hp, if_pos] at h
      rcases List.mem_cons.mp h with h1 | h2
      · exact Or.inl h1
      · exact Or.inr (List.mem_cons_of_mem _ h2)
    · simp only [dictInsert, hp, if_neg, not_false_iff] at h
      rcases List.mem_cons.mp h with h1 | h2
      · exact Or.inr (h1 ▸ List.mem_cons_self _ _)
      · rcases ih h2 with h3 | h4
        · exact Or.inl h3
        · exact Or.inr (List.mem_cons_of_mem _ h4)

theorem isSome_dictGet_dictInsert {α : Type} (d : List (String × α)) (k k' : String) (v : α)
    (h : (dictGet d k).isSome = true) : (dictGet (dictInsert d k' v) k).isSome = true := by
  by_cases hk : k = k'
  · subst hk; rw [dictGet_dictInsert_self]; rfl
  · rw [dictGet_dictInsert_ne d v hk]; exact h

theorem isSome_dictGet_dictUpdate {α : Type} (e : List (String × α)) :
    ∀ d : List (String × α), ∀ k : String, (dictGet d k).isSome = true →
      (dictGet (dictUpdate d e) k).isSome = true := by
  induction e with
  | nil => intro d k h; exact h
  | cons q rest ih =>
    intro d k h
    exact ih (dictInsert d q.1 q.2) k (isSome_dictGet_dictInsert d k q.1 q.2 h)

theorem dictGet_dictUpdate_of_no_key {α : Type} (e : List (String × α)) :
    ∀ d : List (String × α), ∀ k : String, (∀ q ∈ e, q.1 ≠ k) →
      dictGet (dictUpdate d e) k = dictGet d k := by
  induction e with
  | nil => intro d k _; rfl
  | cons q rest ih =>
    intro d k h
    have hq : q.1 ≠ k := h q (List.mem_cons_self _ _)
    have : dictGet (dictInsert d q.1 q.2) k = dictGet d k :=
      dictGet_dictInsert_ne d q.2 (fun hh => hq hh.symm)
    calc dictGet (dictUpdate (dictInsert d q.1 q.2) rest) k
        = dictGet (dictInsert d q.1 q.2) k :=
          ih _ k (fun r hr => h r (List.mem_cons_of_mem _ hr))
      _ = dictGet d k := this

theorem dictGet_dictUpdate_of_mem {α : Type} (e : List (String × α)) :
    ∀ d : List (String × α), ∀ k : String, ∀ v : α,
      (e.map Prod.fst).Nodup → dictGet e k = some v →
      dictGet (dictUpdate d e) k = some v := by
  induction e with
  | nil => intro d k v _ h; simp [dictGet] at h
  | cons q rest ih =>
    intro d k v hnd hget
    have hnd' : (rest.map Prod.fst).Nodup := (List.nodup_cons.mp hnd).2
    by_cases hq : q.1 = k
    · have hv : v = q.2 := by
        simp only [dictGet, hq, if_pos] at hget
        exact (Option.some.inj hget).symm
      subst hv
      have hknot : k ∉ rest.map Prod.fst := by
        have := (List.nodup_cons.mp hnd).1
        rwa [hq] at this
      have hno : ∀ r ∈ rest, r.1 ≠ k := by
        intro r hr hrk
        exact hknot (hrk ▸ List.mem_map_of_mem Prod.fst hr)
      show dictGet (dictUpdate (dictInsert d q.1 q.2) rest) k = some q.2
      rw [dictGet_dictUpdate_of_no_key rest _ k hno, hq, dictGet_dictInsert_self]
    · have hget' : dictGet rest k = some v := by
        simpa [dictGet, hq] using hget
      exact ih (dictInsert d q.1 q.2) k v hnd' hget'

/-! ## Lemmas about `build_forward_headers` -/

theorem get_fal_key_ok {key : String} (hkey : key ≠ "") :
    get_fal_key (some key) = Except.ok key := by
  simp [get_fal_key, hkey]

theorem not_droppedHeader_iff (k : String) :
    droppedHeader k = false ↔
      (lowerStr k) ≠ "host" ∧ (lowerStr k) ≠ "authorization" ∧
      (lowerStr k) ≠ "content-length" ∧ (lowerStr k) ≠ "connection" := by
  simp only [droppedHeader, List.contains, Bool.not_eq_true]
  constructor
  · intro h
    have hmem : (lowerStr k) ∉ ["host", "authorization", "content-length", "connection"] := by
      intro hm
      rw [(List.elem_iff).mpr hm] at h
      exact Bool.noConfusion h
    simp only [List.mem_cons, List.not_mem_nil, or_false, not_or] at hmem
    exact ⟨hmem.1, hmem.2.1, hmem.2.2.1, hmem.2.2.2⟩
  · intro h
    rcases h with ⟨h1, h2, h3, h4⟩
    cases helem : List.elem (lowerStr k) ["host", "authorization", "content-length", "connection"] with
    | false => rfl
    | true =>
      have := (List.elem_iff).mp helem
      simp only [List.mem_cons, List.not_mem_nil, or_false] at this
      rcases this with h | h | h | h
      · exact absurd h h1
      · exact absurd h h2
      · exact absurd h h3
      · exact absurd h h4

theorem stripDeny_all_kept (l : List (String × String)) :
    ∀ acc : List (String × String), (∀ q ∈ acc, droppedHeader q.1 = false) →
      ∀ q ∈ stripDeny acc l, droppedHeader q.1 = false := by
  induction l with
  | nil => intro acc h q hq; exact h q hq
  | cons p rest ih =>
    intro acc h q hq
    cases hd : droppedHeader p.1 with
    | true =>
      rw [stripDeny, hd] at hq
      exact ih acc h q (by simpa using hq)
    | false =>
      rw [stripDeny, hd] at hq
      refine ih (dictInsert acc p.1 p.2) ?_ q (by simpa using hq)
      intro r hr
      rcases mem_dictInsert hr with h1 | h2
      · rw [h1]; exact hd
      · exact h r h2

theorem build_forward_headers_ok {key : String} (hkey : key ≠ "")
    (incoming : List (String × String)) :
    build_forward_headers (some key) incoming =
      Except.ok (dictInsert (stripDeny [] incoming) "Authorization" ("Key " ++ key)) := by
  rw [build_forward_headers, get_fal_key_ok hkey]

/-- The outbound header dict built by `build_forward_headers` satisfies the
header-hygiene contract: `Authorization` holds the configured key, any header
whose lowered name is `authorization` is exactly that entry, and no header
lowers to `host`, `content-length` or `connection`. -/
theorem forward_headers_props {key : String} (hkey : key ≠ "")
    (incoming hs : List (String × String))
    (hok : build_forward_headers (some key) incoming = Except.ok hs) :
    dictGet hs "Authorization" = some ("Key " ++ key) ∧
    (∀ q ∈ hs, (lowerStr q.1) = "authorization" → q = ("Authorization", "Key " ++ key)) ∧
    (∀ q ∈ hs, (lowerStr q.1) ≠ "host" ∧ (lowerStr q.1) ≠ "content-length" ∧
      (lowerStr q.1) ≠ "connection") := by
  rw [build_forward_headers_ok hkey] at hok
  have hhs : hs = dictInsert (stripDeny [] incoming) "Authorization" ("Key " ++ key) :=
    (Except.ok.inj hok).symm
  subst hhs
  have hkept : ∀ q ∈ stripDeny [] incoming, droppedHeader q.1 = false :=
    stripDeny_all_kept incoming [] (by intro q hq; simp at hq)
  refine ⟨dictGet_dictInsert_self _ _ _, ?_, ?_⟩
  · intro q hq hlow
    rcases mem_dictInsert hq with h1 | h2
    · exact h1
    · exact absurd hlow ((not_droppedHeader_iff q.1).mp (hkept q h2)).2.1
  · intro q hq
    rcases mem_dictInsert hq with h1 | h2
    · rw [h1]
      refine ⟨?_, ?_, ?_⟩
      · show lowerStr "Authorization" ≠ "host"
        decide
      · show lowerStr "Authorization" ≠ "content-length"
        decide
      · show lowerStr "Authorization" ≠ "connection"
        decide
    · have := (not_droppedHeader_iff q.1).mp (hkept q h2)
      exact ⟨this.1, this.2.2.1, this.2.2.2⟩

theorem contains_eq_false_iff (l : List String) (k : String) :
    l.contains k = false ↔ k ∉ l := by
  constructor
  · intro h hm
    simp only [List.contains] at h
    rw [(List.elem_iff).mpr hm] at h
    exact Bool.noConfusion h
  · intro hm
    cases h : l.contains k with
    | false => rfl
    | true =>
      simp only [List.contains] at h
      exact absurd ((List.elem_iff).mp h) hm

theorem not_respExcluded {k : String} (h : respExcluded.contains k = false) :
    k ≠ "content-encoding" ∧ k ≠ "transfer-encoding" ∧ k ≠ "connection" := by
  have hm := (contains_eq_false_iff _ _).mp h
  simp only [respExcluded, List.mem_cons, List.not_mem_nil, or_false, not_or] at hm
  exact hm

theorem respExcluded_contains_false {k : String}
    (h1 : k ≠ "content-encoding") (h2 : k ≠ "transfer-encoding") (h3 : k ≠ "connection") :
    respExcluded.contains k = false := by
  rw [contains_eq_false_iff]
  intro hm
  simp only [respExcluded, List.mem_cons, List.not_mem_nil, or_false] at hm
  rcases hm with h | h | h
  · exact h1 h
  · exact h2 h
  · exact h3 h

/-! ## Structure of `forward_to_fal` -/

/-- With a configured key, the forwarder issues exactly the one outbound
request built from the URL, forwarded headers, grouped query params, body and
the fixed 300-second timeout, whatever the network does. -/
theorem forward_to_fal_calls {key : String} (hkey : key ≠ "") (envBase : Option String)
    (netRequest : OutboundRequest → Except String UpstreamResp)
    (method path : String) (args : List (String × String))
    (headers0 : List (String × String)) (body : List Nat) :
    (forward_to_fal (some key) envBase netRequest method path args headers0 body).2 =
      [{ method := method, url := build_fal_url envBase path,
         headers := dictInsert (stripDeny [] headers0) "Authorization" ("Key " ++ key),
         params := argsLists args, body := body, timeout := TIMEOUT_SECONDS }] := by
  simp only [forward_to_fal, build_forward_headers_ok hkey]
  cases hr : netRequest ⟨method, build_fal_url envBase path,
      dictInsert (stripDeny [] headers0) "Authorization" ("Key " ++ key),
      argsLists args, body, TIMEOUT_SECONDS⟩ with
  | error e => rfl
  | ok u => rfl

/-! ## Claim theorems: the forwarder -/

/-- C1: for every inbound request, the outbound header map carries
`Authorization = Key <configured-secret>` (overriding any inbound
`Authorization`), and contains no `Host`, `Content-Length` or `Connection`
header, case-insensitively, whatever the inbound headers were. -/
theorem claim1_outbound_headers (envBase : Option String)
    (netRequest : OutboundRequest → Except String UpstreamResp)
    (method path : String) (args : List (String × String))
    (headers0 : List (String × String)) (body : List Nat)
    (key : String) (hkey : key ≠ "") :
    ∀ req ∈ (forward_to_fal (some key) envBase netRequest method path args headers0 body).2,
      dictGet req.headers "Authorization" = some ("Key " ++ key) ∧
      (∀ q ∈ req.headers, lowerStr q.1 = "authorization" → q = ("Authorization", "Key " ++ key)) ∧
      (∀ q ∈ req.headers, lowerStr q.1 ≠ "host" ∧ lowerStr q.1 ≠ "content-length" ∧
        lowerStr q.1 ≠ "connection") := by
  intro req hreq
  rw [forward_to_fal_calls hkey] at hreq
  have hreqh : req.headers = dictInsert (stripDeny [] headers0) "Authorization" ("Key " ++ key) := by
    rcases List.mem_singleton.mp hreq with h
    rw [h]
  rw [hreqh]
  exact forward_headers_props hkey headers0 _ (build_forward_headers_ok hkey headers0)

def sampleHeaders : List (String × String) :=
  [("Host", "localhost"), ("Authorization", "Bearer client-token"),
   ("Content-Length", "42"), ("Connection", "keep-alive"), ("X-Api-Extra", "1")]

def sampleUpstream : UpstreamResp :=
  { status_code := 200,
    headers := [("Content-Type", "application/json"), ("Content-Encoding", "gzip"),
                ("Transfer-Encoding", "chunked"), ("Connection", "close"),
                ("X-Request-Id", "r1")],
    content := [123, 125] }

def sampleNet : OutboundRequest → Except String UpstreamResp :=
  fun _ => Except.ok sampleUpstream

def sampleReq : OutboundRequest :=
  { method := "POST", url := "https://fal.run/fal-ai/flux/dev",
    headers := [("X-Api-Extra", "1"), ("Authorization", "Key abc")],
    params := [], body := [123, 125], timeout := 300 }

theorem claim1_witness :
    dictGet sampleReq.headers "Authorization" = some ("Key " ++ "abc") ∧
    (∀ q ∈ sampleReq.headers, lowerStr q.1 = "authorization" →
      q = ("Authorization", "Key " ++ "abc")) ∧
    (∀ q ∈ sampleReq.headers, lowerStr q.1 ≠ "host" ∧ lowerStr q.1 ≠ "content-length" ∧
      lowerStr q.1 ≠ "connection") :=
  claim1_outbound_headers none sampleNet "POST" "fal-ai/flux/dev" [] sampleHeaders
    [123, 125] "abc" (by decide) sampleReq (by decide)

/-- C2: for every upstream response received, the relayed reply keeps the
upstream status code and body bytes, and its headers are exactly the upstream
headers with `Content-Encoding`, `Transfer-Encoding` and `Connection` removed
(case-insensitively); every other header survives unaltered, in order. -/
theorem claim2_relay_response (envBase : Option String) (method path : String)
    (args : List (String × String)) (headers0 : List (String × String))
    (body : List Nat) (u : UpstreamResp) (key : String) (hkey : key ≠ "") :
    (forward_to_fal (some key) envBase (fun _ => Except.ok u) method path args headers0 body).1 =
      Except.ok (HttpReply.raw u.status_code (cleanRespHeaders u.headers) u.content) ∧
    (∀ q ∈ cleanRespHeaders u.headers, q ∈ u.headers ∧ lowerStr q.1 ≠ "content-encoding" ∧
      lowerStr q.1 ≠ "transfer-encoding" ∧ lowerStr q.1 ≠ "connection") ∧
    (∀ q ∈ u.headers, lowerStr q.1 ≠ "content-encoding" → lowerStr q.1 ≠ "transfer-encoding" →
      lowerStr q.1 ≠ "connection" → q ∈ cleanRespHeaders u.headers) := by
  refine ⟨?_, ?_, ?_⟩
  · simp only [forward_to_fal, build_forward_headers_ok hkey]
  · intro q hq
    rcases List.mem_filter.mp hq with ⟨hmem, hcond⟩
    have hfalse : respExcluded.contains (lowerStr q.1) = false := by
      cases hc : respExcluded.contains (lowerStr q.1) with
      | false => rfl
      | true => rw [hc] at hcond; exact Bool.noConfusion hcond
    exact ⟨hmem, not_respExcluded hfalse⟩
  · intro q hmem h1 h2 h3
    refine List.mem_filter.mpr ⟨hmem, ?_⟩
    rw [respExcluded_contains_false h1 h2 h3]
    rfl

theorem claim2_witness :
    (forward_to_fal (some "abc") none (fun _ => Except.ok sampleUpstream)
        "GET" "fal-ai/flux/dev" [] [] []).1 =
      Except.ok (HttpReply.raw sampleUpstream.status_code
        (cleanRespHeaders sampleUpstream.headers) sampleUpstream.content) ∧
    (∀ q ∈ cleanRespHeaders sampleUpstream.headers, q ∈ sampleUpstream.headers ∧
      lowerStr q.1 ≠ "content-encoding" ∧ lowerStr q.1 ≠ "transfer-encoding" ∧
      lowerStr q.1 ≠ "connection") ∧
    (∀ q ∈ sampleUpstream.headers, lowerStr q.1 ≠ "content-encoding" →
      lowerStr q.1 ≠ "transfer-encoding" → lowerStr q.1 ≠ "connection" →
      q ∈ cleanRespHeaders sampleUpstream.headers) :=
  claim2_relay_response none "GET" "fal-ai/flux/dev" [] [] [] sampleUpstream "abc" (by decide)

/-- C3: with a configured key the forwarder performs exactly one outbound
call (no retry), and when that call raises, the caller receives HTTP 502 with
the synthetic body `error = "request_to_fal_failed"`, `detail = <message>`. -/
theorem claim3_single_call_and_502 (envBase : Option String)
    (netRequest : OutboundRequest → Except String UpstreamResp)
    (method path : String) (args : List (String × String))
    (headers0 : List (String × String)) (body : List Nat)
    (key emsg : String) (hkey : key ≠ "") :
    (forward_to_fal (some key) envBase netRequest method path args headers0 body).2.length = 1 ∧
    (forward_to_fal (some key) envBase (fun _ => Except.error emsg)
        method path args headers0 body).1 =
      Except.ok (HttpReply.jsonErr 502 "request_to_fal_failed" emsg) := by
  constructor
  · rw [forward_to_fal_calls hkey]
    rfl
  · simp only [forward_to_fal, build_forward_headers_ok hkey]

theorem claim3_witness :
    (forward_to_fal (some "abc") none sampleNet "POST" "fal-ai/flux/dev" []
        sampleHeaders [123, 125]).2.length = 1 ∧
    (forward_to_fal (some "abc") none (fun _ => Except.error "connection refused")
        "POST" "fal-ai/flux/dev" [] sampleHeaders [123, 125]).1 =
      Except.ok (HttpReply.jsonErr 502 "request_to_fal_failed" "connection refused") :=
  claim3_single_call_and_502 none sampleNet "POST" "fal-ai/flux/dev" [] sampleHeaders
    [123, 125] "abc" "connection refused" (by decide)

/-- C4: with `FAL_KEY` unset or empty, forwarding raises while building the
outbound headers — zero outbound calls are made and the raised error is the
missing-key exception, not the synthetic 502 reply. -/
theorem claim4_missing_key_raises (envKey envBase : Option String)
    (netRequest : OutboundRequest → Except String UpstreamResp)
    (method path : String) (args : List (String × String))
    (headers0 : List (String × String)) (body : List Nat)
    (h : envKey = none ∨ envKey = some "") :
    forward_to_fal envKey envBase netRequest method path args headers0 body =
      (Except.error "FAL_KEY is missing", []) := by
  rcases h with h | h <;> subst h <;>
    simp [forward_to_fal, build_forward_headers, get_fal_key]

theorem claim4_witness :
    forward_to_fal (some "") none sampleNet "POST" "fal-ai/flux/dev" []
        sampleHeaders [123, 125] =
      (Except.error "FAL_KEY is missing", []) :=
  claim4_missing_key_raises (some "") none sampleNet "POST" "fal-ai/flux/dev" []
    sampleHeaders [123, 125] (Or.inr rfl)

/-! ## Grouping of query parameters preserves every value -/

theorem contains_eq_true_iff (l : List String) (k : String) :
    l.contains k = true ↔ k ∈ l := by
  simp only [List.contains]
  exact List.elem_iff

theorem valuesFor_append (a b : List (String × String)) (k : String) :
    valuesFor (a ++ b) k = valuesFor a k ++ valuesFor b k := by
  simp [valuesFor, List.filter_append]

theorem valuesFor_block (k0 : String) (l : List String) (k : String) :
    valuesFor (l.map (fun v => (k0, v))) k = if k0 = k then l else [] := by
  induction l with
  | nil => simp [valuesFor]
  | cons x xs ih =>
    by_cases h : k0 = k
    · subst h
      rw [if_pos rfl]
      have ih' : valuesFor (xs.map (fun v => (k0, v))) k0 = xs := by
        rw [ih, if_pos rfl]
      simp only [valuesFor, List.map_cons, List.filter_cons, beq_self_eq_true,
        if_true] at ih' ⊢
      rw [ih']
    · rw [if_neg h]
      have hb : (k0 == k) = false := beq_eq_false_iff_ne.mpr h
      have ih' : valuesFor (xs.map (fun v => (k0, v))) k = [] := by
        rw [ih, if_neg h]
      simpa [valuesFor, hb] using ih'

theorem valuesFor_nil_of_no_key (qs : List (String × String)) (k0 : String)
    (h : ∀ v, (k0, v) ∉ qs) : valuesFor qs k0 = [] := by
  have hf : qs.filter (fun p => p.1 == k0) = [] := by
    rw [List.filter_eq_nil_iff]
    intro a ha hpa
    obtain ⟨a1, a2⟩ := a
    have h1 : a1 = k0 := by simpa using hpa
    exact h a2 (h1 ▸ ha)
  rw [valuesFor, hf]
  rfl

theorem mem_argsKeysFrom (qs : List (String × String)) :
    ∀ (acc : List String) (k : String),
      k ∈ argsKeysFrom acc qs ↔ k ∈ acc ∨ ∃ v, (k, v) ∈ qs := by
  induction qs with
  | nil =>
    intro acc k
    simp [argsKeysFrom]
  | cons p rest ih =>
    intro acc k
    by_cases hc : acc.contains p.1 = true
    · rw [argsKeysFrom, if_pos hc, ih]
      constructor
      · rintro (h | ⟨v, hv⟩)
        · exact Or.inl h
        · exact Or.inr ⟨v, List.mem_cons_of_mem _ hv⟩
      · rintro (h | ⟨v, hv⟩)
        · exact Or.inl h
        · rcases List.mem_cons.mp hv with h1 | h2
          · left
            have hk : k = p.1 := congrArg Prod.fst h1
            rw [hk]
            exact (contains_eq_true_iff acc p.1).mp hc
          · exact Or.inr ⟨v, h2⟩
    · rw [argsKeysFrom, if_neg hc, ih]
      constructor
      · rintro (h | ⟨v, hv⟩)
        · rcases List.mem_append.mp h with h1 | h2
          · exact Or.inl h1
          · right
            have hk : k = p.1 := List.mem_singleton.mp h2
            exact ⟨p.2, hk ▸ List.mem_cons_self _ _⟩
        · exact Or.inr ⟨v, List.mem_cons_of_mem _ hv⟩
      · rintro (h | ⟨v, hv⟩)
        · exact Or.inl (List.mem_append.mpr (Or.inl h))
        · rcases List.mem_cons.mp hv with h1 | h2
          · left
            refine List.mem_append.mpr (Or.inr ?_)
            rw [List.mem_singleton]
            exact congrArg Prod.fst h1
          · exact Or.inr ⟨v, h2⟩

theorem nodup_argsKeysFrom (qs : List (String × String)) :
    ∀ acc : List String, acc.Nodup → (argsKeysFrom acc qs).Nodup := by
  induction qs with
  | nil => intro acc h; exact h
  | cons p rest ih =>
    intro acc h
    by_cases hc : acc.contains p.1 = true
    · rw [argsKeysFrom, if_pos hc]
      exact ih acc h
    · rw [argsKeysFrom, if_neg hc]
      have hcf : acc.contains p.1 = false := by
        cases hcc : acc.contains p.1 with
        | false => rfl
        | true => exact absurd hcc hc
      refine ih _ ?_
      rw [List.nodup_append]
      refine ⟨h, List.nodup_singleton _, ?_⟩
      rw [List.disjoint_singleton]
      exact (contains_eq_false_iff acc p.1).mp hcf

theorem valuesFor_encode_blocks (qs : List (String × String)) :
    ∀ ks : List String, ks.Nodup → ∀ k0 : String,
      valuesFor (encodeParams (ks.map (fun k => (k, valuesFor qs k)))) k0 =
        if k0 ∈ ks then valuesFor qs k0 else [] := by
  intro ks
  induction ks with
  | nil =>
    intro _ k0
    simp [encodeParams, valuesFor]
  | cons k ks ih =>
    intro hnd k0
    obtain ⟨hknotin, hnd'⟩ := List.nodup_cons.mp hnd
    simp only [List.map_cons, encodeParams]
    rw [valuesFor_append, valuesFor_block, ih hnd' k0]
    by_cases h : k = k0
    · subst h
      rw [if_pos rfl, if_neg hknotin, if_pos (List.mem_cons_self _ _)]
      simp
    · rw [if_neg h]
      by_cases hm : k0 ∈ ks
      · rw [if_pos hm, if_pos (List.mem_cons_of_mem _ hm)]
        simp
      · rw [if_neg hm, if_neg ?_]
        · simp
        · intro hmm
          rcases List.mem_cons.mp hmm with h1 | h2
          · exact h h1.symm
          · exact hm h2

/-- Grouping the raw query pairs by key (`args.lists()`) and re-encoding them
as repeated keys (what `requests` sends on the wire) preserves, for every key,
exactly the inbound values in their original order. -/
theorem encode_argsLists_eq (qs : List (String × String)) (k0 : String) :
    valuesFor (encodeParams (argsLists qs)) k0 = valuesFor qs k0 := by
  rw [argsLists]
  rw [valuesFor_encode_blocks qs (argsKeys qs) (nodup_argsKeysFrom qs [] List.nodup_nil) k0]
  by_cases h : k0 ∈ argsKeys qs
  · rw [if_pos h]
  · rw [if_neg h]
    have hno : ∀ v, (k0, v) ∉ qs := by
      intro v hv
      exact h ((mem_argsKeysFrom qs [] k0).mpr (Or.inr ⟨v, hv⟩))
    exact (valuesFor_nil_of_no_key qs k0 hno).symm

/-- C9: every inbound query parameter reaches the outbound call with all of
its values: the outbound params are the grouped inbound pairs, and for every
key the wire encoding carries exactly the inbound values in order — repeated
keys are not collapsed. -/
theorem claim9_query_multivalues (envBase : Option String)
    (netRequest : OutboundRequest → Except String UpstreamResp)
    (method path : String) (qs : List (String × String))
    (headers0 : List (String × String)) (body : List Nat)
    (key : String) (hkey : key ≠ "") :
    ∀ req ∈ (forward_to_fal (some key) envBase netRequest method path qs headers0 body).2,
      req.params = argsLists qs ∧
      ∀ k, valuesFor (encodeParams req.params) k = valuesFor qs k := by
  intro req hreq
  rw [forward_to_fal_calls hkey] at hreq
  have h := List.mem_singleton.mp hreq
  subst h
  exact ⟨rfl, fun k => encode_argsLists_eq qs k⟩

def sampleQueryReq : OutboundRequest :=
  { method := "GET", url := "https://fal.run/fal-ai/flux/dev",
    headers := [("Authorization", "Key abc")],
    params := [("a", ["1", "3"]), ("b", ["2"])], body := [], timeout := 300 }

theorem claim9_witness :
    sampleQueryReq.params = argsLists [("a", "1"), ("b", "2"), ("a", "3")] ∧
    ∀ k, valuesFor (encodeParams sampleQueryReq.params) k =
      valuesFor [("a", "1"), ("b", "2"), ("a", "3")] k :=
  claim9_query_multivalues none sampleNet "GET" "fal-ai/flux/dev"
    [("a", "1"), ("b", "2"), ("a", "3")] [] [] "abc" (by decide)
    sampleQueryReq (by decide)

/-! ## Lemmas about the upload loop and `run_image_edit` -/

theorem uploadLoop_removed_eq_created (up : Nat × String → Except String String)
    (fs : List FileStorage) (idx : Nat) :
    (uploadLoop up fs idx).removed = (uploadLoop up fs idx).created := by
  induction fs generalizing idx with
  | nil => rfl
  | cons f rest ih =>
    by_cases hf : f.filename = ""
    · rw [uploadLoop, if_pos hf]
      exact ih idx
    · rw [uploadLoop, if_neg hf]
      cases hu : up (idx, tmpSuffix f.filename) with
      | error e => simp [hu]
      | ok url => simp [hu, ih (idx + 1)]

theorem uploadLoop_created_from_files (up : Nat × String → Except String String)
    (fs : List FileStorage) (idx : Nat) :
    ∀ t ∈ (uploadLoop up fs idx).created,
      ∃ f ∈ fs, f.filename ≠ "" ∧ t.2 = tmpSuffix f.filename := by
  induction fs generalizing idx with
  | nil => intro t ht; exact absurd ht (List.not_mem_nil t)
  | cons f rest ih =>
    intro t ht
    by_cases hf : f.filename = ""
    · rw [uploadLoop, if_pos hf] at ht
      rcases ih idx t ht with ⟨g, hg, hgood⟩
      exact ⟨g, List.mem_cons_of_mem _ hg, hgood⟩
    · rw [uploadLoop, if_neg hf] at ht
      cases hu : up (idx, tmpSuffix f.filename) with
      | error e =>
        simp only [hu, List.mem_singleton] at ht
        exact ⟨f, List.mem_cons_self _ _, hf, by rw [ht]⟩
      | ok url =>
        simp only [hu, List.mem_cons] at ht
        rcases ht with h1 | h2
        · exact ⟨f, List.mem_cons_self _ _, hf, by rw [h1]⟩
        · rcases ih (idx + 1) t h2 with ⟨g, hg, hgood⟩
          exact ⟨g, List.mem_cons_of_mem _ hg, hgood⟩

theorem uploadLoop_all_empty (up : Nat × String → Except String String)
    (fs : List FileStorage) (idx : Nat) (hf : ∀ f ∈ fs, f.filename = "") :
    uploadLoop up fs idx = { urls := [], created := [], removed := [], err := none } := by
  induction fs generalizing idx with
  | nil => rfl
  | cons f rest ih =>
    have hfe : f.filename = "" := hf f (List.mem_cons_self _ _)
    rw [uploadLoop, if_pos hfe]
    exact ih idx (fun g hg => hf g (List.mem_cons_of_mem _ hg))

theorem run_image_edit_runCalls_shape (envKey : Option String)
    (up : Nat × String → Except String String)
    (rm : String → List (String × JVal) → Except String (List (String × JVal)))
    (m p : String) (files : List FileStorage) (ea : Option (List (String × JVal))) :
    ∀ c ∈ (run_image_edit envKey up rm m p files ea).2.runCalls,
      c = (m, buildArguments p (uploadLoop up files 0).urls ea) := by
  intro c hc
  simp only [run_image_edit] at hc
  split at hc
  · exact absurd hc (List.not_mem_nil c)
  · split at hc
    · exact absurd hc (List.not_mem_nil c)
    · split at hc
      · exact absurd hc (List.not_mem_nil c)
      · split at hc
        · exact List.mem_singleton.mp hc
        · exact List.mem_singleton.mp hc

theorem run_image_edit_created_in_loop (envKey : Option String)
    (up : Nat × String → Except String String)
    (rm : String → List (String × JVal) → Except String (List (String × JVal)))
    (m p : String) (files : List FileStorage) (ea : Option (List (String × JVal))) :
    ∀ t ∈ (run_image_edit envKey up rm m p files ea).2.created,
      t ∈ (uploadLoop up files 0).created := by
  intro t ht
  simp only [run_image_edit] at ht
  split at ht
  · exact absurd ht (List.not_mem_nil t)
  · split at ht
    · exact ht
    · split at ht
      · exact ht
      · split at ht
        · exact ht
        · exact ht

theorem run_image_edit_removed_eq_created (envKey : Option String)
    (up : Nat × String → Except String String)
    (rm : String → List (String × JVal) → Except String (List (String × JVal)))
    (m p : String) (files : List FileStorage) (ea : Option (List (String × JVal))) :
    (run_image_edit envKey up rm m p files ea).2.removed =
      (run_image_edit envKey up rm m p files ea).2.created := by
  simp only [run_image_edit]
  split
  · rfl
  · split
    · exact uploadLoop_removed_eq_created up files 0
    · split
      · exact uploadLoop_removed_eq_created up files 0
      · split
        · exact uploadLoop_removed_eq_created up files 0
        · exact uploadLoop_removed_eq_created up files 0

theorem run_image_edit_no_valid_files (envKey : Option String)
    (up : Nat × String → Except String String)
    (rm : String → List (String × JVal) → Except String (List (String × JVal)))
    (m p : String) (files : List FileStorage) (ea : Option (List (String × JVal)))
    (hf : ∀ f ∈ files, f.filename = "") :
    (∃ e, (run_image_edit envKey up rm m p files ea).1 = Except.error e) ∧
    (run_image_edit envKey up rm m p files ea).2.runCalls = [] := by
  have hUL := uploadLoop_all_empty up files 0 hf
  constructor
  · cases hg : get_fal_key envKey with
    | error e => exact ⟨e, by simp [run_image_edit, hg]⟩
    | ok kk =>
      exact ⟨"No valid images were uploaded", by simp [run_image_edit, hg, hUL]⟩
  · cases hg : get_fal_key envKey with
    | error e => simp [run_image_edit, hg]
    | ok kk => simp [run_image_edit, hg, hUL]

/-! ## Lemmas about `buildArguments` -/

theorem dictUpdate_nil {α : Type} (d : List (String × α)) : dictUpdate d [] = d := rfl

theorem buildArguments_some_eq_update (p : String) (urls : List String)
    (e : List (String × JVal)) :
    buildArguments p urls (some e) =
      dictUpdate [("prompt", JVal.str p), ("image_urls", JVal.strs urls)] e := by
  cases e with
  | nil => rfl
  | cons q rest => rfl

theorem buildArguments_keys_present (p : String) (urls : List String)
    (ea : Option (List (String × JVal))) :
    (dictGet (buildArguments p urls ea) "prompt").isSome = true ∧
    (dictGet (buildArguments p urls ea) "image_urls").isSome = true := by
  have hb1 : (dictGet [("prompt", JVal.str p), ("image_urls", JVal.strs urls)]
      "prompt").isSome = true := by
    rw [dictGet, if_pos rfl]
    rfl
  have hb2 : (dictGet [("prompt", JVal.str p), ("image_urls", JVal.strs urls)]
      "image_urls").isSome = true := by
    have hne : ¬("prompt" = "image_urls") := by decide
    rw [dictGet, if_neg (fun hc => hne hc), dictGet, if_pos rfl]
    rfl
  cases ea with
  | none => exact ⟨hb1, hb2⟩
  | some e =>
    rw [buildArguments_some_eq_update]
    exact ⟨isSome_dictGet_dictUpdate e _ _ hb1, isSome_dictGet_dictUpdate e _ _ hb2⟩

/-! ## Fixtures for the edit endpoint -/

def seedreamModel : String := "fal-ai/bytedance/seedream/v4/edit"

def nanoBananaModel : String := "fal-ai/nano-banana-pro/edit"

def sampleUpload : Nat × String → Except String String :=
  fun t => Except.ok ("https://v3.fal.media/files/upload" ++ toString t.1 ++ ".png")

def sampleUploadFail : Nat × String → Except String String :=
  fun _ => Except.error "upload failed"

def sampleRunModel : String → List (String × JVal) → Except String (List (String × JVal)) :=
  fun _ _ => Except.ok [("images", JVal.strs ["https://v3.fal.media/files/out.png"])]

def samplePngFile : FileStorage := { filename := "photo.png", content := [137, 80, 78, 71] }

def sampleNoNameFile : FileStorage := { filename := "", content := [1, 2, 3] }

/-! ## Claim theorems: the edit endpoint -/

/-- C5: `POST /ui/edit` with no files under `images` yields HTTP 400
`{error: "missing_images"}` with no upload or model call; and when every file
is invalid (empty filename) the helper raises without ever invoking the
remote model. -/
theorem claim5_missing_images (envKey : Option String)
    (up : Nat × String → Except String String)
    (rm : String → List (String × JVal) → Except String (List (String × JVal)))
    (mf pf : Option String) (ep : Option (List (String × JVal)))
    (m p : String) (files : List FileStorage) (ea : Option (List (String × JVal)))
    (hf : ∀ f ∈ files, f.filename = "") :
    ui_edit envKey up rm mf pf ep [] =
      ({ status := 400, body := [("error", JVal.str "missing_images")] },
       { created := [], removed := [], runCalls := [] }) ∧
    (∃ e, (run_image_edit envKey up rm m p files ea).1 = Except.error e) ∧
    (run_image_edit envKey up rm m p files ea).2.runCalls = [] :=
  ⟨rfl, run_image_edit_no_valid_files envKey up rm m p files ea hf⟩

theorem claim5_witness :
    ui_edit (some "secret") sampleUpload sampleRunModel (some "m") (some "p") (some []) [] =
      ({ status := 400, body := [("error", JVal.str "missing_images")] },
       { created := [], removed := [], runCalls := [] }) ∧
    (∃ e, (run_image_edit (some "secret") sampleUpload sampleRunModel "m" "p"
      [sampleNoNameFile] none).1 = Except.error e) ∧
    (run_image_edit (some "secret") sampleUpload sampleRunModel "m" "p"
      [sampleNoNameFile] none).2.runCalls = [] :=
  claim5_missing_images (some "secret") sampleUpload sampleRunModel (some "m") (some "p")
    (some []) "m" "p" [sampleNoNameFile] none (by decide)

/-- C6: every transient file created for a valid uploaded file (named with the
original extension, defaulting to `.png`) is removed again on every exit path
— the removed set equals the created set whether each upload returned or
raised. -/
theorem claim6_transient_cleanup (envKey : Option String)
    (up : Nat × String → Except String String)
    (rm : String → List (String × JVal) → Except String (List (String × JVal)))
    (m p : String) (files : List FileStorage) (ea : Option (List (String × JVal))) :
    (run_image_edit envKey up rm m p files ea).2.removed =
      (run_image_edit envKey up rm m p files ea).2.created ∧
    ∀ t ∈ (run_image_edit envKey up rm m p files ea).2.created,
      ∃ f ∈ files, f.filename ≠ "" ∧ t.2 = tmpSuffix f.filename := by
  refine ⟨run_image_edit_removed_eq_created envKey up rm m p files ea, ?_⟩
  intro t ht
  exact uploadLoop_created_from_files up files 0 t
    (run_image_edit_created_in_loop envKey up rm m p files ea t ht)

theorem claim6_witness :
    (run_image_edit (some "secret") sampleUploadFail sampleRunModel "m" "p"
        [samplePngFile] none).2.removed =
      (run_image_edit (some "secret") sampleUploadFail sampleRunModel "m" "p"
        [samplePngFile] none).2.created ∧
    ∀ t ∈ (run_image_edit (some "secret") sampleUploadFail sampleRunModel "m" "p"
        [samplePngFile] none).2.created,
      ∃ f ∈ [samplePngFile], f.filename ≠ "" ∧ t.2 = tmpSuffix f.filename :=
  claim6_transient_cleanup (some "secret") sampleUploadFail sampleRunModel "m" "p"
    [samplePngFile] none

/-- C7 counterexample: the parameter object does not depend on which of the
two supported model identifiers is targeted — both receive the identical
`prompt` + `image_urls` dict, and no single-image `image_url` variant exists. -/
theorem claim7_counterexample :
    (run_image_edit (some "secret") sampleUpload sampleRunModel seedreamModel
        "restyle" [samplePngFile] none).2.runCalls.map Prod.snd =
      (run_image_edit (some "secret") sampleUpload sampleRunModel nanoBananaModel
        "restyle" [samplePngFile] none).2.runCalls.map Prod.snd ∧
    (run_image_edit (some "secret") sampleUpload sampleRunModel nanoBananaModel
        "restyle" [samplePngFile] none).2.runCalls.map Prod.snd =
      [[("prompt", JVal.str "restyle"),
        ("image_urls", JVal.strs ["https://v3.fal.media/files/upload0.png"])]] ∧
    dictGet [("prompt", JVal.str "restyle"),
      ("image_urls", JVal.strs ["https://v3.fal.media/files/upload0.png"])] "image_url" = none := by
  refine ⟨?_, ?_, ?_⟩ <;> decide

/-- C7 (amended): for every edit invocation, the parameter object passed to
the remote model contains `prompt` and `image_urls` (the uploaded URLs as a
list, before any caller merge), regardless of which model identifier is
targeted; no endpoint-dependent single-image variant is ever built. -/
theorem claim7_arguments_uniform (envKey : Option String)
    (up : Nat × String → Except String String)
    (rm : String → List (String × JVal) → Except String (List (String × JVal)))
    (m p : String) (files : List FileStorage) (ea : Option (List (String × JVal))) :
    ∀ c ∈ (run_image_edit envKey up rm m p files ea).2.runCalls,
      c = (m, buildArguments p (uploadLoop up files 0).urls ea) ∧
      (dictGet c.2 "prompt").isSome = true ∧
      (dictGet c.2 "image_urls").isSome = true := by
  intro c hc
  have hshape := run_image_edit_runCalls_shape envKey up rm m p files ea c hc
  refine ⟨hshape, ?_, ?_⟩
  · rw [hshape]
    exact (buildArguments_keys_present p (uploadLoop up files 0).urls ea).1
  · rw [hshape]
    exact (buildArguments_keys_present p (uploadLoop up files 0).urls ea).2

def sampleEditCall : String × List (String × JVal) :=
  (seedreamModel,
   [("prompt", JVal.str "restyle"),
    ("image_urls", JVal.strs ["https://v3.fal.media/files/upload0.png"])])

theorem claim7_witness :
    sampleEditCall = (seedreamModel,
      buildArguments "restyle" (uploadLoop sampleUpload [samplePngFile] 0).urls none) ∧
    (dictGet sampleEditCall.2 "prompt").isSome = true ∧
    (dictGet sampleEditCall.2 "image_urls").isSome = true :=
  claim7_arguments_uniform (some "secret") sampleUpload sampleRunModel seedreamModel
    "restyle" [samplePngFile] none sampleEditCall (by decide)

/-- C8: the final arguments sent to the remote model are the defaults
(`prompt`, uploaded `image_urls`) updated with the caller's entries, so every
key present in the caller's dict carries the caller's value in the final
arguments (caller wins on overlap). -/
theorem claim8_extra_overrides (envKey : Option String)
    (up : Nat × String → Except String String)
    (rm : String → List (String × JVal) → Except String (List (String × JVal)))
    (m p : String) (files : List FileStorage) (e : List (String × JVal))
    (hnd : (e.map Prod.fst).Nodup) :
    ∀ c ∈ (run_image_edit envKey up rm m p files (some e)).2.runCalls,
      c.2 = dictUpdate [("prompt", JVal.str p),
          ("image_urls", JVal.strs (uploadLoop up files 0).urls)] e ∧
      ∀ k v, dictGet e k = some v → dictGet c.2 k = some v := by
  intro c hc
  have hshape := run_image_edit_runCalls_shape envKey up rm m p files (some e) c hc
  have harg : c.2 = buildArguments p (uploadLoop up files 0).urls (some e) := by
    rw [hshape]
  rw [harg, buildArguments_some_eq_update]
  refine ⟨rfl, ?_⟩
  intro k v hkv
  exact dictGet_dictUpdate_of_mem e _ k v hnd hkv

def sampleMergedCall : String × List (String × JVal) :=
  (seedreamModel,
   [("prompt", JVal.str "override"),
    ("image_urls", JVal.strs ["https://v3.fal.media/files/upload0.png"]),
    ("seed", JVal.num 7)])

theorem claim8_witness :
    sampleMergedCall.2 = dictUpdate [("prompt", JVal.str "restyle"),
        ("image_urls", JVal.strs (uploadLoop sampleUpload [samplePngFile] 0).urls)]
        [("prompt", JVal.str "override"), ("seed", JVal.num 7)] ∧
    ∀ k v, dictGet [("prompt", JVal.str "override"), ("seed", JVal.num 7)] k = some v →
      dictGet sampleMergedCall.2 k = some v :=
  claim8_extra_overrides (some "secret") sampleUpload sampleRunModel seedreamModel
    "restyle" [samplePngFile] [("prompt", JVal.str "override"), ("seed", JVal.num 7)]
    (by decide) sampleMergedCall (by decide)

/-- C10: a malformed `extra_json` field never causes a rejection: the handler
behaves exactly as if the caller had supplied the empty JSON object, and —
with files and model present — the reply status is never 400. -/
theorem claim10_malformed_extra (envKey : Option String)
    (up : Nat × String → Except String String)
    (rm : String → List (String × JVal) → Except String (List (String × JVal)))
    (mf pf : Option String) (files : List FileStorage) :
    ui_edit envKey up rm mf pf none files = ui_edit envKey up rm mf pf (some []) files ∧
    (files ≠ [] → ∀ m, mf = some m → m ≠ "" →
      (ui_edit envKey up rm mf pf none files).1.status ≠ 400) := by
  constructor
  · rfl
  · intro hne m hm hm'
    subst hm
    cases files with
    | nil => exact absurd rfl hne
    | cons a l =>
      rcases hrun : run_image_edit envKey up rm m (pf.getD "") (a :: l) (some []) with ⟨res, tr⟩
      cases res with
      | error e => simp [ui_edit, hm', hrun]
      | ok r => simp [ui_edit, hm', hrun]

theorem claim10_witness :
    ui_edit (some "secret") sampleUpload sampleRunModel (some "m") (some "p")
        none [samplePngFile] =
      ui_edit (some "secret") sampleUpload sampleRunModel (some "m") (some "p")
        (some []) [samplePngFile] ∧
    ([samplePngFile] ≠ [] → ∀ m, (some "m" : Option String) = some m → m ≠ "" →
      (ui_edit (some "secret") sampleUpload sampleRunModel (some "m") (some "p")
        none [samplePngFile]).1.status ≠ 400) :=
  claim10_malformed_extra (some "secret") sampleUpload sampleRunModel (some "m")
    (some "p") [samplePngFile]

end FalProxy
